import Mathlib

/-!
Verification of `find_duplicate_header_guards.py`.

The program classifies C/C++ headers by their duplicate-inclusion
protection (`#pragma once` or an `#ifndef`/`#define` guard pair) and
reports guard tags shared by several files.

The Python code matches three regular expressions with `re.search` /
`re.match`:
  * `#ifndef (\w+)\s?.*\n#define`            (search)
  * `#ifndef {tag}\s?.*\n#define (\w+)`      (search, `tag` a word literal)
  * `^#pragma once\s?\n`                     (match, i.e. anchored at 0)
We embed them with a small backtracking matcher over `List Char` that
implements exactly Python's semantics for the constructs these patterns
use: literal runs, a single-character class with `?` (greedy), `.*`
(greedy star of a class), and a captured `(\w+)` (greedy plus).  The
leftmost match wins, and at a given position alternatives are explored
in greedy order.  Character classes are modelled on their ASCII
fragment (`\w` = letters, digits, underscore; `\s` = the six ASCII
whitespace characters); all inputs considered in the theorems below are
ASCII, where the Python classes and these agree.
-/

/-- Python `\w`, ASCII fragment: letters, digits and underscore. -/
def isWordChar (c : Char) : Bool := c.isAlphanum || c == '_'

/-- Python `\s`, ASCII fragment: space, tab, newline, carriage return,
vertical tab and form feed. -/
def isSpaceChar (c : Char) : Bool :=
  c == ' ' || c == '\t' || c == '\n' || c == '\r' || c == '\x0b' || c == '\x0c'

/-- Python `.` without `DOTALL`: any character except a newline. -/
def isNotNewline (c : Char) : Bool := !(c == '\n')

/-- One element of a linear regular expression: a literal run of
characters, an optional single character of a class (`X?`, greedy), a
greedy star of a class (`X*`), or a greedy captured plus (`(X+)`). -/
inductive Item where
  | lit (cs : List Char)
  | optCls (p : Char → Bool)
  | starCls (p : Char → Bool)
  | plusGrp (p : Char → Bool)

/-- Ordered alternative: the first branch is preferred, exactly as a
backtracking regex engine explores alternatives. -/
def firstSome (a : Option (List Char)) (b : Unit → Option (List Char)) :
    Option (List Char) :=
  match a with
  | some v => some v
  | none => b ()

/-- Greedy star of a class, outside any capture group: consume as many
`p`-characters as possible, backtracking to shorter runs, and run the
continuation `f` on the rest. -/
def starClsRun (f : List Char → Option (List Char)) (p : Char → Bool) :
    List Char → Option (List Char)
  | [] => f []
  | c :: s => if p c then firstSome (starClsRun f p s) (fun _ => f (c :: s)) else f (c :: s)

/-- Greedy star of a class inside the capture group: as `starClsRun`,
but the consumed characters are prepended to the returned capture. -/
def starGrpRun (f : List Char → Option (List Char)) (p : Char → Bool) :
    List Char → Option (List Char)
  | [] => f []
  | c :: s =>
    if p c then
      firstSome ((starGrpRun f p s).map (fun cap => c :: cap)) (fun _ => f (c :: s))
    else f (c :: s)

/-- Match a linear regular expression at the start of `s` (a prefix
match; trailing input is ignored, as for Python match objects).
Returns the text captured by the single group of the pattern (`[]` for
patterns without a group). -/
def mtch : List Item → List Char → Option (List Char)
  | [], _ => some []
  | .lit l :: rest, s =>
    if l.isPrefixOf s then mtch rest (List.drop l.length s) else none
  | .optCls p :: rest, s =>
    match s with
    | [] => mtch rest []
    | c :: s' =>
      if p c then firstSome (mtch rest s') (fun _ => mtch rest (c :: s'))
      else mtch rest (c :: s')
  | .starCls p :: rest, s => starClsRun (mtch rest) p s
  | .plusGrp p :: rest, s =>
    match s with
    | [] => none
    | c :: s' =>
      if p c then (starGrpRun (mtch rest) p s').map (fun cap => c :: cap) else none

/-- Python `re.search`: try the pattern at every position from the left
and return the first (leftmost) match's capture. -/
def search (items : List Item) : List Char → Option (List Char)
  | [] => mtch items []
  | c :: s => firstSome (mtch items (c :: s)) (fun _ => search items s)

/-- The regex `#ifndef (\w+)\s?.*\n#define` of `get_header_guard_status`. -/
def re_header_guard_name : List Item :=
  [ .lit ("#ifndef ".toList), .plusGrp isWordChar, .optCls isSpaceChar,
    .starCls isNotNewline, .lit ("\n#define".toList) ]

/-- The regex `#ifndef {tag}\s?.*\n#define (\w+)` of
`get_header_guard_status` (second, tag-specific search). -/
def re_define (tag : String) : List Item :=
  [ .lit (("#ifndef " ++ tag).toList), .optCls isSpaceChar,
    .starCls isNotNewline, .lit ("\n#define ".toList), .plusGrp isWordChar ]

/-- The regex `^#pragma once\s?\n` of `uses_pragma_once`. -/
def re_pragma_once : List Item :=
  [ .lit ("#pragma once".toList), .optCls isSpaceChar, .lit ("\n".toList) ]

/-- The `HeaderGuardStatus` dataclass. -/
structure HeaderGuardStatus where
  ifndef_name : Option String := none
  def_name : Option String := none
deriving DecidableEq, Repr

/-- Rendering of an optional string in a Python f-string (`None` for an
absent value). -/
def optRepr : Option String → String
  | none => "None"
  | some s => s

/-- `HeaderGuardStatus.get_error`. -/
def HeaderGuardStatus.get_error (s : HeaderGuardStatus) : Option String :=
  match s.ifndef_name with
  | none => some ("'#ifndef' is missing")
  | some i =>
    if s.def_name ≠ some i then
      some ("#ifndef ('" ++ i ++ "') != def_name('" ++ optRepr s.def_name ++ "')")
    else none

/-- `get_header_guard_status`: first search for
`#ifndef (\w+)\s?.*\n#define`; on failure return `None`; otherwise run
the tag-specific second search, taking `""` for the define name when it
fails. -/
def get_header_guard_status (data : String) : Option HeaderGuardStatus :=
  match search re_header_guard_name data.toList with
  | none => none
  | some tag =>
    let define_tag : String :=
      match search (re_define (String.mk tag)) data.toList with
      | some d => String.mk d
      | none => ""
    some { ifndef_name := some (String.mk tag), def_name := some define_tag }

/-- `uses_pragma_once`: `re.match` of `^#pragma once\s?\n`, i.e. a
match anchored at position 0. -/
def uses_pragma_once (data : String) : Bool :=
  (mtch re_pragma_once data.toList).isSome

/-- The `HeaderStatus` dataclass. -/
structure HeaderStatus where
  file_path : String
  header_guard_status : Option HeaderGuardStatus := none
  uses_pragma_once : Bool := false
deriving DecidableEq, Repr

/-- `check_header`.  Reading the file is external I/O; the file's
decoded text is passed as `data`. -/
def check_header (file_path : String) (data : String) : HeaderStatus :=
  if uses_pragma_once data then
    { file_path := file_path, header_guard_status := none, uses_pragma_once := true }
  else
    match get_header_guard_status data with
    | some status =>
      { file_path := file_path, header_guard_status := some status,
        uses_pragma_once := false }
    | none =>
      { file_path := file_path, header_guard_status := none, uses_pragma_once := false }

/-- Insertion into the tag dictionary, modelled as an association list
in key insertion order: an existing bucket has the path appended, a new
key is appended at the end (Python dicts preserve insertion order). -/
def insertTag (m : List (String × List String)) (tag : String) (fp : String) :
    List (String × List String) :=
  match m with
  | [] => [(tag, [fp])]
  | (k, v) :: rest =>
    if k = tag then (k, v ++ [fp]) :: rest else (k, v) :: insertTag rest tag fp

/-- The loop of `map_guard_tag_to_filepaths`; a `ValueError` is
modelled as `Except.error`.  Python truthiness: `not x` holds for
`None` of a dataclass field, and for `None` or `""` of a string. -/
def mapGuardGo (statuses : List HeaderStatus) (acc : List (String × List String)) :
    Except String (List (String × List String)) :=
  match statuses with
  | [] => .ok acc
  | status :: rest =>
    match status.header_guard_status with
    | none => .error ("does not have a header_guard_status")
    | some g =>
      match g.ifndef_name with
      | none => .error ("does not have a ifndef tag")
      | some t =>
        if t = "" then .error ("does not have a ifndef tag")
        else mapGuardGo rest (insertTag acc t status.file_path)

/-- `map_guard_tag_to_filepaths`. -/
def map_guard_tag_to_filepaths (statuses : List HeaderStatus) :
    Except String (List (String × List String)) :=
  mapGuardGo statuses []

/-- `duplicated_header_guards_exist` (the `print` calls are I/O and are
dropped). -/
def duplicated_header_guards_exist (header_statuses : List HeaderStatus) :
    Except String Bool :=
  match map_guard_tag_to_filepaths header_statuses with
  | .error e => .error e
  | .ok m =>
    .ok (decide (0 < (m.filter (fun pr => 1 < pr.2.length)).length))

/-- `process_dir`, lines 160-187: the part following enumeration.  The
enumerated header paths together with their decoded file contents are
the input (enumeration is modelled separately, file reading is external
I/O). -/
def process_dir (headers : List (String × String)) : Except String (Option String) :=
  let header_statuses := headers.map (fun h => check_header h.1 h.2)
  let no_protection :=
    header_statuses.filter (fun s => s.header_guard_status.isNone && !s.uses_pragma_once)
  let include_guards := header_statuses.filter (fun s => s.header_guard_status.isSome)
  match duplicated_header_guards_exist include_guards with
  | .error e => .error e
  | .ok dup =>
    .ok (if 0 < no_protection.length || dup then some ("Errors found") else none)

/-- `process_file`. -/
def process_file (file_path : String) (data : String) : Except String (Option String) :=
  let status := check_header file_path data
  if !status.uses_pragma_once && status.header_guard_status.isNone then
    .ok (some (status.file_path ++ " does not have any header duplication protection."))
  else if status.uses_pragma_once then
    .ok none
  else
    match status.header_guard_status with
    | some g =>
      match g.get_error with
      | some error => .ok (some (status.file_path ++ " error with header guards: " ++ error))
      | none => .ok none
    | none => .error ("Should not get here")

/-- The `__main__` block: exit status 1 when `process_dir` reports an
error string, 0 otherwise. -/
def main_exit_code (headers : List (String × String)) : Except String Nat :=
  match process_dir headers with
  | .error e => .error e
  | .ok r => .ok (if r.isSome then 1 else 0)

/-- Split a character list at every occurrence of `sep`, as Python's
`str.split` (an empty input yields one empty component). -/
def splitOnChar (sep : Char) : List Char → List (List Char)
  | [] => [[]]
  | c :: s =>
    if c == sep then [] :: splitOnChar sep s
    else
      match splitOnChar sep s with
      | [] => [[c]]
      | h :: t => (c :: h) :: t

/-- ASCII lower-casing of one character (`str.lower` restricted to the
ASCII range of the inputs considered here). -/
def asciiLower (c : Char) : Char :=
  if 'A' ≤ c ∧ c ≤ 'Z' then Char.ofNat (c.toNat + 32) else c

/-- `Path(file_name).suffixes` of Python's `pathlib`: empty for a name
ending in a dot; otherwise strip leading dots, split on dots, and
return every component but the first, each with a leading dot. -/
def suffixes (file_name : String) : List String :=
  let cs := file_name.toList
  if cs.getLast? = some '.' then []
  else
    ((splitOnChar '.' (cs.dropWhile (fun c => c == '.'))).drop 1).map
      (fun s => String.mk ('.' :: s))

/-- `is_header`: some lowercased dot-suffix of the name is one of
`.h`, `.hpp`, `.hxx`. -/
def is_header (file_name : String) : Bool :=
  (suffixes file_name).any (fun s =>
    [".h", ".hpp", ".hxx"].contains (String.mk (s.toList.map asciiLower)))

/-- `dirs_to_ignore`. -/
def dirs_to_ignore (ignore_source_control_dirs : Bool) : List String :=
  if ignore_source_control_dirs then [".git", ".svn"] else []

mutual
/-- A directory of the scanned file system: its regular file names and
its subdirectories. -/
inductive FSTree where
  | mk (files : List String) (subdirs : FSForest)
/-- The subdirectories of a directory: name plus tree, in `os.scandir`
order. -/
inductive FSForest where
  | nil
  | cons (name : String) (tree : FSTree) (rest : FSForest)
end

/-- The immediate (non-ignored) subdirectories with their full paths:
the `subfolders` list comprehension of `get_sub_dirs_to_search`. -/
def immediateSubs (ig : List String) (path : String) : FSForest → List (String × FSTree)
  | .nil => []
  | .cons n t rest =>
    (if ig.contains n then [] else [(path ++ "/" ++ n, t)]) ++ immediateSubs ig path rest

mutual
/-- `get_sub_dirs_to_search`: the immediate non-ignored subdirectories
followed by, for each of them in order, its own recursive result. -/
def get_sub_dirs_to_search (ig : List String) (path : String) : FSTree → List (String × FSTree)
  | .mk _ subs => immediateSubs ig path subs ++ subDirsForest ig path subs
/-- Recursive traversal of the non-ignored subdirectories, in order. -/
def subDirsForest (ig : List String) (path : String) : FSForest → List (String × FSTree)
  | .nil => []
  | .cons n t rest =>
    (if ig.contains n then [] else get_sub_dirs_to_search ig (path ++ "/" ++ n) t) ++
      subDirsForest ig path rest
end

/-- `find_header_files`: the header-named regular files of one
directory, with full paths. -/
def find_header_files (path : String) (t : FSTree) : List String :=
  match t with
  | .mk files _ => (files.filter is_header).map (fun n => path ++ "/" ++ n)

/-- The header enumeration of `process_dir`, lines 155-159: collect the
header files of every directory `get_sub_dirs_to_search` returns. -/
def enumerate_headers (root : String) (t : FSTree) : List String :=
  ((get_sub_dirs_to_search (dirs_to_ignore true) root t).map
    (fun p => find_header_files p.1 p.2)).flatten

/-- The guard tag of a classified header, when present. -/
def tagOf (s : HeaderStatus) : Option String :=
  s.header_guard_status.bind (fun g => g.ifndef_name)

/-- The analyzer's input contract: a present guard status with a
non-absent, non-empty `ifndef_name`. -/
def GoodStatus (s : HeaderStatus) : Prop :=
  ∃ g t, s.header_guard_status = some g ∧ g.ifndef_name = some t ∧ t ≠ ""

/-- First-match lookup in the tag dictionary (`[]` for an absent key). -/
def lookupB (m : List (String × List String)) (tag : String) : List String :=
  match m with
  | [] => []
  | (k, v) :: rest => if k = tag then v else lookupB rest tag

/-- The bucket a tag must receive: the file paths of the statuses
carrying that tag, in input order. -/
def bucketSpec (l : List HeaderStatus) (tag : String) : List String :=
  (l.filter (fun s => decide (tagOf s = some tag))).map (fun s => s.file_path)

/-- `pat` occurs as a substring. -/
def substrB (pat : List Char) : List Char → Bool
  | [] => pat.isPrefixOf []
  | c :: s => pat.isPrefixOf (c :: s) || substrB pat s

/-- The shape `re.match` accepts for `^#pragma once\s?\n`: the text
begins, with no preceding characters, with `#pragma once`, at most one
whitespace character, and a newline. -/
def PragmaStart (data : String) : Prop :=
  (∃ rest, data.toList = ("#pragma once".toList) ++ '\n' :: rest) ∨
  (∃ c rest, isSpaceChar c = true ∧
    data.toList = ("#pragma once".toList) ++ c :: '\n' :: rest)

/-! ## Basic lemmas about the matcher -/

theorem firstSome_isSome (a : Option (List Char)) (b : Unit → Option (List Char)) :
    (firstSome a b).isSome = true ↔ a.isSome = true ∨ (b ()).isSome = true := by
  cases a <;> simp [firstSome]

theorem firstSome_eq_some (a : Option (List Char)) (b : Unit → Option (List Char))
    (v : List Char) (h : a = some v) : firstSome a b = some v := by
  rw [h]; rfl

theorem firstSome_eq_none (a : Option (List Char)) (b : Unit → Option (List Char))
    (h : a = none) : firstSome a b = b () := by
  rw [h]; rfl

theorem isPrefixOf_append_self (l t : List Char) : l.isPrefixOf (l ++ t) = true := by
  simp [List.isPrefixOf_iff_prefix]

theorem mtch_lit_append (l : List Char) (rest : List Item) (s : List Char) :
    mtch (.lit l :: rest) (l ++ s) = mtch rest s := by
  simp [mtch, isPrefixOf_append_self, List.drop_left]

theorem mtch_lit_fail (l : List Char) (rest : List Item) (s : List Char)
    (h : l.isPrefixOf s = false) : mtch (.lit l :: rest) s = none := by
  simp [mtch, h]

theorem eq_append_drop_of_isPrefixOf (l s : List Char) (h : l.isPrefixOf s = true) :
    s = l ++ List.drop l.length s := by
  obtain ⟨t, ht⟩ := List.isPrefixOf_iff_prefix.mp h
  subst ht
  rw [List.drop_left]

/-! ## The pragma-once pattern -/

theorem mtch_lit_newline_isSome (s : List Char) :
    (mtch [.lit ("\n".toList)] s).isSome = true ↔ ∃ t, s = '\n' :: t := by
  cases s with
  | nil =>
    simp only [mtch, List.isPrefixOf]
    constructor
    · intro h; cases h
    · rintro ⟨t, ht⟩; cases ht
  | cons c t =>
    by_cases hc : c = '\n'
    · subst hc
      have hpre : ("\n".toList).isPrefixOf ('\n' :: t) = true := by
        rw [List.isPrefixOf_iff_prefix]
        exact ⟨t, rfl⟩
      simp only [mtch, hpre, if_true]
      exact ⟨fun _ => ⟨t, rfl⟩, fun _ => by simp [mtch]⟩
    · have hpre : ("\n".toList).isPrefixOf (c :: t) = false := by
        by_contra hcon
        rw [Bool.not_eq_false] at hcon
        obtain ⟨u, hu⟩ := List.isPrefixOf_iff_prefix.mp hcon
        rw [show ("\n".toList) = ['\n'] from rfl] at hu
        cases hu
        exact hc rfl
      simp only [mtch, hpre, Bool.false_eq_true, if_false]
      constructor
      · intro h; cases h
      · rintro ⟨t', ht'⟩
        cases ht'
        exact absurd rfl hc

theorem mtch_opt_newline_isSome (s : List Char) :
    (mtch [.optCls isSpaceChar, .lit ("\n".toList)] s).isSome = true ↔
      (∃ t, s = '\n' :: t) ∨ (∃ c t, isSpaceChar c = true ∧ s = c :: '\n' :: t) := by
  cases s with
  | nil =>
    rw [show mtch [.optCls isSpaceChar, .lit ("\n".toList)] [] =
        mtch [.lit ("\n".toList)] [] from rfl, mtch_lit_newline_isSome]
    constructor
    · rintro ⟨t, ht⟩; cases ht
    · rintro (⟨t, ht⟩ | ⟨c, t, _, ht⟩) <;> cases ht
  | cons c s₁ =>
    by_cases hc : isSpaceChar c = true
    · have hstep : mtch [.optCls isSpaceChar, .lit ("\n".toList)] (c :: s₁) =
          firstSome (mtch [.lit ("\n".toList)] s₁)
            (fun _ => mtch [.lit ("\n".toList)] (c :: s₁)) := by
        simp [mtch, hc]
      rw [hstep, firstSome_isSome, mtch_lit_newline_isSome, mtch_lit_newline_isSome]
      constructor
      · rintro (⟨t, rfl⟩ | ⟨t, ht⟩)
        · exact Or.inr ⟨c, t, hc, rfl⟩
        · exact Or.inl ⟨t, ht⟩
      · rintro (⟨t, ht⟩ | ⟨c', t, _, ht⟩)
        · exact Or.inr ⟨t, ht⟩
        · injection ht with h1 h2
          subst h1
          exact Or.inl ⟨t, h2⟩
    · have hstep : mtch [.optCls isSpaceChar, .lit ("\n".toList)] (c :: s₁) =
          mtch [.lit ("\n".toList)] (c :: s₁) := by
        simp [mtch, hc]
      rw [hstep, mtch_lit_newline_isSome]
      constructor
      · rintro ⟨t, ht⟩
        exact Or.inl ⟨t, ht⟩
      · rintro (⟨t, ht⟩ | ⟨c', t, hc', ht⟩)
        · exact ⟨t, ht⟩
        · injection ht with h1 h2
          subst h1
          exact absurd hc' hc

theorem mtch_pragma_isSome_iff (s : List Char) :
    (mtch re_pragma_once s).isSome = true ↔
      (∃ rest, s = ("#pragma once".toList) ++ '\n' :: rest) ∨
      (∃ c rest, isSpaceChar c = true ∧
        s = ("#pragma once".toList) ++ c :: '\n' :: rest) := by
  cases hp : ("#pragma once".toList).isPrefixOf s with
  | false =>
    rw [show re_pragma_once = .lit ("#pragma once".toList) ::
          [.optCls isSpaceChar, .lit ("\n".toList)] from rfl,
        mtch_lit_fail _ _ _ hp]
    simp only [Option.isSome_none, Bool.false_eq_true, false_iff]
    rintro (⟨rest, rfl⟩ | ⟨c, rest, hc, rfl⟩) <;>
      simp [isPrefixOf_append_self] at hp
  | true =>
    obtain ⟨s₀, hs⟩ : ∃ s₀, s = ("#pragma once".toList) ++ s₀ :=
      ⟨_, eq_append_drop_of_isPrefixOf _ _ hp⟩
    subst hs
    rw [show re_pragma_once = .lit ("#pragma once".toList) ::
          [.optCls isSpaceChar, .lit ("\n".toList)] from rfl,
        mtch_lit_append, mtch_opt_newline_isSome]
    constructor
    · rintro (⟨t, rfl⟩ | ⟨c, t, hc, rfl⟩)
      · exact Or.inl ⟨t, rfl⟩
      · exact Or.inr ⟨c, t, hc, rfl⟩
    · rintro (⟨rest, h⟩ | ⟨c, rest, hc, h⟩)
      · exact Or.inl ⟨rest, by simpa using h⟩
      · exact Or.inr ⟨c, rest, hc, by simpa using h⟩

theorem uses_pragma_once_iff (data : String) :
    uses_pragma_once data = true ↔ PragmaStart data := by
  rw [uses_pragma_once, mtch_pragma_isSome_iff]
  rfl

theorem toList_append (a b : String) : (a ++ b).toList = a.toList ++ b.toList :=
  String.data_append a b

theorem uses_pragma_once_false_of_no_start (data : String)
    (h : ("#pragma once".toList).isPrefixOf data.toList = false) :
    uses_pragma_once data = false := by
  rw [uses_pragma_once,
    show re_pragma_once = .lit ("#pragma once".toList) ::
      [.optCls isSpaceChar, .lit ("\n".toList)] from rfl,
    mtch_lit_fail _ _ _ h]
  rfl

/-- C10: the pragma-once check accepts exactly the texts beginning, with no
preceding characters, with `#pragma once`, at most one whitespace character,
and a newline; in particular `#pragma once` without a final newline, or with
two whitespace characters before the newline, is not accepted. -/
theorem C10_pragma_shape :
    (∀ data : String, uses_pragma_once data = true ↔ PragmaStart data) ∧
    uses_pragma_once ("#pragma once") = false ∧
    uses_pragma_once ("#pragma once  \n") = false :=
  ⟨uses_pragma_once_iff, by decide, by decide⟩

/-- C10 witness: `"#pragma once \n"` (one trailing space) is accepted. -/
theorem C10_pragma_shape_witness : uses_pragma_once ("#pragma once \n") = true :=
  (C10_pragma_shape.1 ("#pragma once \n")).mpr
    (Or.inr ⟨' ', [], by decide, by decide⟩)

/-- C1 counterexample: a text whose first line is `#pragma once` after one
character of leading whitespace is NOT classified as pragma-once, contrary to
the claim's "after optional leading whitespace". -/
theorem C1_counterexample :
    (" #pragma once\n" : String) = " " ++ "#pragma once" ++ "\n" ∧
    uses_pragma_once (" #pragma once\n") = false ∧
    (check_header ("f.h") (" #pragma once\n")).uses_pragma_once = false := by
  refine ⟨by decide, by decide, by decide⟩

/-- C1 (amended): a text starting at position 0 (no leading whitespace) with
`#pragma once`, at most one whitespace character, and a newline is classified
pragma-once regardless of everything after the newline (in particular of any
later `#ifndef`); and a text that does not begin with `#pragma once` — e.g.
one where `#pragma once` appears only later — is never classified pragma-once. -/
theorem C1_pragma_first_line :
    (∀ path data mid rest : String,
        (mid = "" ∨ ∃ c, isSpaceChar c = true ∧ mid = String.mk [c]) →
        data = "#pragma once" ++ mid ++ "\n" ++ rest →
        check_header path data =
          { file_path := path, header_guard_status := none, uses_pragma_once := true }) ∧
    (∀ data : String, ("#pragma once".toList).isPrefixOf data.toList = false →
        uses_pragma_once data = false) := by
  constructor
  · intro path data mid rest hmid hdata
    have hp : uses_pragma_once data = true := by
      rw [uses_pragma_once_iff]
      subst hdata
      rcases hmid with rfl | ⟨c, hc, rfl⟩
      · exact Or.inl ⟨rest.toList, by simp [toList_append, String.toList]⟩
      · exact Or.inr ⟨c, rest.toList, hc, by simp [toList_append, String.toList]⟩
    simp [check_header, hp]
  · exact uses_pragma_once_false_of_no_start

/-- C1 witness: `"#pragma once\n"` followed by an `#ifndef` guard is still
classified pragma-once. -/
theorem C1_pragma_first_line_witness :
    ("#pragma once\n#ifndef A_H\n#define A_H\n" : String) =
      "#pragma once" ++ "" ++ "\n" ++ "#ifndef A_H\n#define A_H\n" ∧
    check_header ("f.h") ("#pragma once\n#ifndef A_H\n#define A_H\n") =
      { file_path := "f.h", header_guard_status := none, uses_pragma_once := true } :=
  ⟨by decide,
    C1_pragma_first_line.1 ("f.h") _ ("") ("#ifndef A_H\n#define A_H\n")
      (Or.inl rfl) (by decide)⟩

/-! ## The capture of the first guard search is a nonempty word -/

theorem mtch_guard_capture_ne_nil (s cap : List Char)
    (h : mtch re_header_guard_name s = some cap) : cap ≠ [] := by
  rw [show re_header_guard_name = .lit ("#ifndef ".toList) :: .plusGrp isWordChar ::
      [.optCls isSpaceChar, .starCls isNotNewline, .lit ("\n#define".toList)] from rfl] at h
  cases hp : ("#ifndef ".toList).isPrefixOf s with
  | false => rw [mtch_lit_fail _ _ _ hp] at h; cases h
  | true =>
    simp only [mtch, hp, if_true] at h
    cases hs : List.drop ("#ifndef ".toList).length s with
    | nil => rw [hs] at h; simp [mtch] at h
    | cons c t =>
      rw [hs] at h
      simp only [mtch] at h
      by_cases hw : isWordChar c = true
      · rw [if_pos hw] at h
        obtain ⟨v, _, hv⟩ := Option.map_eq_some'.mp h
        rw [← hv]
        simp
      · rw [if_neg hw] at h; cases h

theorem search_guard_capture_ne_nil (s cap : List Char)
    (h : search re_header_guard_name s = some cap) : cap ≠ [] := by
  induction s with
  | nil => rw [search] at h; exact mtch_guard_capture_ne_nil _ _ h
  | cons c s ih =>
    rw [search] at h
    cases hm : mtch re_header_guard_name (c :: s) with
    | some v =>
      rw [firstSome_eq_some _ _ _ hm] at h
      rw [Option.some.injEq] at h
      subst h
      exact mtch_guard_capture_ne_nil _ _ hm
    | none =>
      rw [firstSome_eq_none _ _ hm] at h
      exact ih h

theorem guard_ifndef_nonempty (data : String) (g : HeaderGuardStatus)
    (h : get_header_guard_status data = some g) :
    ∃ t : String, g.ifndef_name = some t ∧ t ≠ "" := by
  unfold get_header_guard_status at h
  cases hs : search re_header_guard_name data.toList with
  | none => rw [hs] at h; cases h
  | some tag =>
    rw [hs] at h
    simp only [Option.some.injEq] at h
    subst h
    refine ⟨String.mk tag, rfl, fun hemp => ?_⟩
    have : tag = [] := by simpa [String.ext_iff] using hemp
    exact search_guard_capture_ne_nil _ _ hs this

/-- C7: a classified header never has both the pragma flag and a guard
status (exactly one of pragma / guard / neither holds), and a text matching
neither pattern is classified unprotected. -/
theorem C7_mutual_exclusion :
    ∀ path data : String,
      (¬((check_header path data).uses_pragma_once = true ∧
          ((check_header path data).header_guard_status).isSome = true)) ∧
      (uses_pragma_once data = false → get_header_guard_status data = none →
        check_header path data =
          { file_path := path, header_guard_status := none,
            uses_pragma_once := false }) := by
  intro path data
  constructor
  · by_cases hp : uses_pragma_once data = true
    · simp [check_header, hp]
    · cases hg : get_header_guard_status data <;> simp [check_header, hp, hg]
  · intro h1 h2
    simp [check_header, h1, h2]

/-- C7 witness: a plain text is classified unprotected. -/
theorem C7_mutual_exclusion_witness :
    uses_pragma_once ("// no protection\nint x;\n") = false ∧
    get_header_guard_status ("// no protection\nint x;\n") = none ∧
    check_header ("f.h") ("// no protection\nint x;\n") =
      { file_path := "f.h", header_guard_status := none, uses_pragma_once := false } :=
  ⟨by decide, by decide,
    (C7_mutual_exclusion ("f.h") ("// no protection\nint x;\n")).2 (by decide) (by decide)⟩

/-- C6: single-file mode returns (without an exception) a finding exactly
when the file is unprotected, or carries a guard whose `ifndef_name` differs
from `def_name` or is absent or empty; pragma-once files and self-consistent
guards yield no finding. -/
theorem C6_single_file_outcomes :
    ∀ path data : String,
      ∃ r, process_file path data = .ok r ∧
        (r.isSome = true ↔
          ((check_header path data).uses_pragma_once = false ∧
            (check_header path data).header_guard_status = none) ∨
          (∃ g, (check_header path data).header_guard_status = some g ∧
            (g.ifndef_name ≠ g.def_name ∨ g.ifndef_name = none ∨
              g.ifndef_name = some ("")))) := by
  intro path data
  by_cases hp : uses_pragma_once data = true
  · have hch : check_header path data =
        { file_path := path, header_guard_status := none, uses_pragma_once := true } := by
      simp [check_header, hp]
    refine ⟨none, ?_, ?_⟩
    · simp [process_file, hch]
    · simp [hch]
  · cases hg : get_header_guard_status data with
    | none =>
      have hch : check_header path data =
          { file_path := path, header_guard_status := none, uses_pragma_once := false } := by
        simp [check_header, hp, hg]
      refine ⟨some (path ++ " does not have any header duplication protection."), ?_, ?_⟩
      · simp [process_file, hch]
      · simp [hch]
    | some g =>
      have hch : check_header path data =
          { file_path := path, header_guard_status := some g, uses_pragma_once := false } := by
        simp [check_header, hp, hg]
      obtain ⟨t, hti, htne⟩ := guard_ifndef_nonempty data g hg
      by_cases he : g.def_name = some t
      · have hge : g.get_error = none := by
          unfold HeaderGuardStatus.get_error
          rw [hti]
          simp [he]
        refine ⟨none, ?_, ?_⟩
        · simp [process_file, hch, hge]
        · simp [hch, hti, he, htne]
      · have hge : g.get_error =
            some ("#ifndef ('" ++ t ++ "') != def_name('" ++ optRepr g.def_name ++ "')") := by
          unfold HeaderGuardStatus.get_error
          rw [hti]
          simp [he]
        refine ⟨some (path ++ " error with header guards: " ++
          ("#ifndef ('" ++ t ++ "') != def_name('" ++ optRepr g.def_name ++ "')")), ?_, ?_⟩
        · simp [process_file, hch, hge]
        · simp only [Option.isSome_some, true_iff]
          exact Or.inr ⟨g, by rw [hch],
            Or.inl (by rw [hti]; exact fun hcon => he hcon.symm)⟩

/-- C6 witness: an unprotected file yields a finding in single-file mode. -/
theorem C6_single_file_outcomes_witness :
    ∃ r, process_file ("f.h") ("// no protection\nint x;\n") = .ok r ∧
      r.isSome = true := by
  obtain ⟨r, h1, h2⟩ := C6_single_file_outcomes ("f.h") ("// no protection\nint x;\n")
  exact ⟨r, h1, h2.mpr (Or.inl ⟨by decide, by decide⟩)⟩

/-! ## The tag dictionary -/

theorem lookupB_insertTag (m : List (String × List String)) (tag fp k : String) :
    lookupB (insertTag m tag fp) k =
      if tag = k then lookupB m k ++ [fp] else lookupB m k := by
  induction m with
  | nil =>
    by_cases hk : tag = k <;> simp [insertTag, lookupB, hk]
  | cons pr rest ih =>
    obtain ⟨k', v⟩ := pr
    by_cases h1 : k' = tag
    · subst h1
      by_cases h2 : k' = k
      · subst h2
        simp [insertTag, lookupB]
      · simp [insertTag, lookupB, h2]
    · by_cases h2 : k' = k
      · subst h2
        have : tag ≠ k' := fun h => h1 h.symm
        simp [insertTag, lookupB, h1, this]
      · simp [insertTag, lookupB, h1, h2, ih]

theorem insertTag_keys (m : List (String × List String)) (tag fp : String) :
    (insertTag m tag fp).map Prod.fst =
      if tag ∈ m.map Prod.fst then m.map Prod.fst else m.map Prod.fst ++ [tag] := by
  induction m with
  | nil => simp [insertTag]
  | cons pr rest ih =>
    obtain ⟨k', v⟩ := pr
    by_cases h1 : k' = tag
    · subst h1
      simp [insertTag]
    · have hne : tag ≠ k' := fun h => h1 h.symm
      by_cases h2 : tag ∈ rest.map Prod.fst
      · simp [insertTag, h1, ih, h2, hne]
      · simp [insertTag, h1, ih, h2, hne]

theorem nodup_insertTag (m : List (String × List String)) (tag fp : String)
    (h : (m.map Prod.fst).Nodup) : ((insertTag m tag fp).map Prod.fst).Nodup := by
  rw [insertTag_keys]
  by_cases hm : tag ∈ m.map Prod.fst
  · rwa [if_pos hm]
  · rw [if_neg hm]
    simp [List.nodup_append, h, hm]

theorem mem_of_lookupB_ne_nil (m : List (String × List String)) (k : String)
    (h : lookupB m k ≠ []) : (k, lookupB m k) ∈ m := by
  induction m with
  | nil => simp [lookupB] at h
  | cons pr rest ih =>
    obtain ⟨k', v⟩ := pr
    by_cases hk : k' = k
    · subst hk
      simp [lookupB]
    · rw [lookupB, if_neg hk]
      rw [lookupB, if_neg hk] at h
      exact List.mem_cons_of_mem _ (ih h)

theorem lookupB_of_mem (m : List (String × List String))
    (pr : String × List String) (hnd : (m.map Prod.fst).Nodup) (h : pr ∈ m) :
    lookupB m pr.1 = pr.2 := by
  induction m with
  | nil => cases h
  | cons q rest ih =>
    obtain ⟨k', v⟩ := q
    rcases List.mem_cons.mp h with rfl | hmem
    · simp [lookupB]
    · have hk : k' ≠ pr.1 := by
        intro hcon
        subst hcon
        have : pr.1 ∈ rest.map Prod.fst := List.mem_map.mpr ⟨pr, hmem, rfl⟩
        exact (List.nodup_cons.mp hnd).1 this
      rw [lookupB, if_neg hk]
      exact ih (List.nodup_cons.mp hnd).2 hmem

theorem bucketSpec_nil (k : String) : bucketSpec [] k = [] := by
  simp [bucketSpec]

theorem bucketSpec_cons_of_tag (s : HeaderStatus) (l : List HeaderStatus)
    (t : String) (htag : tagOf s = some t) (k : String) :
    bucketSpec (s :: l) k =
      if t = k then s.file_path :: bucketSpec l k else bucketSpec l k := by
  by_cases hk : t = k
  · subst hk
    simp [bucketSpec, List.filter_cons, htag]
  · have : ¬(tagOf s = some k) := by rw [htag]; simp [hk]
    simp [bucketSpec, List.filter_cons, this, hk]

theorem mapGuardGo_good (l : List HeaderStatus) :
    ∀ acc, (∀ s, s ∈ l → GoodStatus s) →
      ∃ m, mapGuardGo l acc = .ok m ∧
        (∀ k, lookupB m k = lookupB acc k ++ bucketSpec l k) ∧
        ((acc.map Prod.fst).Nodup → (m.map Prod.fst).Nodup) := by
  induction l with
  | nil =>
    intro acc _
    exact ⟨acc, rfl, fun k => by simp [bucketSpec_nil], id⟩
  | cons s rest ih =>
    intro acc h
    obtain ⟨g, t, hg, ht, htne⟩ := h s (List.mem_cons_self s rest)
    have hstep : mapGuardGo (s :: rest) acc =
        mapGuardGo rest (insertTag acc t s.file_path) := by
      simp [mapGuardGo, hg, ht, htne]
    obtain ⟨m, hm, hlk, hnd⟩ :=
      ih (insertTag acc t s.file_path) (fun x hx => h x (List.mem_cons_of_mem s hx))
    refine ⟨m, hstep.trans hm, ?_, fun hacc => hnd (nodup_insertTag acc t s.file_path hacc)⟩
    intro k
    have htag : tagOf s = some t := by simp [tagOf, hg, ht]
    rw [hlk k, lookupB_insertTag, bucketSpec_cons_of_tag s rest t htag k]
    by_cases hk : t = k
    · subst hk
      simp
    · simp [hk]

theorem map_guard_spec (l : List HeaderStatus) (h : ∀ s, s ∈ l → GoodStatus s) :
    ∃ m, map_guard_tag_to_filepaths l = .ok m ∧
      (∀ k, lookupB m k = bucketSpec l k) ∧ ((m.map Prod.fst).Nodup) := by
  obtain ⟨m, hm, hlk, hnd⟩ := mapGuardGo_good l [] h
  exact ⟨m, hm, fun k => by simpa [lookupB] using hlk k, hnd (by simp)⟩

theorem duplicated_spec (l : List HeaderStatus) (h : ∀ s, s ∈ l → GoodStatus s) :
    ∃ b, duplicated_header_guards_exist l = .ok b ∧
      (b = true ↔ ∃ k, 1 < (bucketSpec l k).length) := by
  obtain ⟨m, hm, hlk, hnd⟩ := map_guard_spec l h
  refine ⟨decide (0 < (m.filter (fun pr => 1 < pr.2.length)).length), ?_, ?_⟩
  · unfold duplicated_header_guards_exist
    rw [hm]
  · rw [decide_eq_true_eq]
    constructor
    · intro hpos
      obtain ⟨pr, hpr⟩ := List.exists_mem_of_length_pos hpos
      have hprm := List.mem_filter.mp hpr
      have hcol : 1 < pr.2.length := by simpa using hprm.2
      have hpr2 : pr.2 = bucketSpec l pr.1 := by
        rw [← hlk pr.1, lookupB_of_mem m pr hnd hprm.1]
      exact ⟨pr.1, by rw [← hpr2]; exact hcol⟩
    · rintro ⟨k, hk⟩
      have hne : lookupB m k ≠ [] := by
        rw [hlk k]
        intro hcon
        rw [hcon] at hk
        simp at hk
      have hmem := mem_of_lookupB_ne_nil m k hne
      have hfil : (k, lookupB m k) ∈ m.filter (fun pr => 1 < pr.2.length) :=
        List.mem_filter.mpr ⟨hmem, by rw [hlk k]; simpa using hk⟩
      exact List.length_pos_of_mem hfil

theorem bucketSpec_length_le_one_of_pairwise (l : List HeaderStatus)
    (hpw : List.Pairwise (fun a b => tagOf a ≠ tagOf b) l) (k : String) :
    (bucketSpec l k).length ≤ 1 := by
  rw [bucketSpec, List.length_map]
  cases hf : l.filter (fun s => decide (tagOf s = some k)) with
  | nil => simp
  | cons a t2 =>
    cases t2 with
    | nil => simp
    | cons b t3 =>
      exfalso
      have hpf : List.Pairwise (fun a b => tagOf a ≠ tagOf b)
          (l.filter (fun s => decide (tagOf s = some k))) :=
        List.Pairwise.sublist (List.filter_sublist l) hpw
      rw [hf] at hpf
      have hab : tagOf a ≠ tagOf b := (List.pairwise_cons.mp hpf).1 b (by simp)
      have ha : a ∈ l.filter (fun s => decide (tagOf s = some k)) := by rw [hf]; simp
      have hb : b ∈ l.filter (fun s => decide (tagOf s = some k)) := by rw [hf]; simp
      have ha2 : tagOf a = some k := by simpa using (List.mem_filter.mp ha).2
      have hb2 : tagOf b = some k := by simpa using (List.mem_filter.mp hb).2
      exact hab (ha2.trans hb2.symm)

theorem mapGuardGo_error (l : List HeaderStatus) :
    ∀ acc, (∃ s, s ∈ l ∧ (s.header_guard_status = none ∨
        ∃ g, s.header_guard_status = some g ∧
          (g.ifndef_name = none ∨ g.ifndef_name = some ("")))) →
      ∃ e, mapGuardGo l acc = .error e := by
  induction l with
  | nil =>
    rintro acc ⟨s, hs, _⟩
    cases hs
  | cons s rest ih =>
    rintro acc ⟨s', hs', hbad⟩
    cases hsg : s.header_guard_status with
    | none =>
      refine ⟨("does not have a header_guard_status"), ?_⟩
      simp [mapGuardGo, hsg]
    | some g =>
      cases hgi : g.ifndef_name with
      | none =>
        refine ⟨("does not have a ifndef tag"), ?_⟩
        simp [mapGuardGo, hsg, hgi]
      | some t =>
        by_cases hte : t = ""
        · refine ⟨("does not have a ifndef tag"), ?_⟩
          simp [mapGuardGo, hsg, hgi, hte]
        · have hstep : mapGuardGo (s :: rest) acc =
              mapGuardGo rest (insertTag acc t s.file_path) := by
            simp [mapGuardGo, hsg, hgi, hte]
          rcases List.mem_cons.mp hs' with rfl | hmem
          · exfalso
            rcases hbad with hb | ⟨g', hg', hb⟩
            · rw [hsg] at hb; cases hb
            · rw [hsg, Option.some.injEq] at hg'
              subst hg'
              rcases hb with hb | hb
              · rw [hgi] at hb; cases hb
              · rw [hgi, Option.some.injEq] at hb
                exact hte hb
          · obtain ⟨e, he⟩ := ih (insertTag acc t s.file_path) ⟨s', hmem, hbad⟩
            exact ⟨e, hstep.trans he⟩

/-- C5: the duplicate-tag analyzer raises (a `ValueError`) exactly for
inputs violating its contract: if some entry has no guard status, or an
absent or empty `ifndef_name`, the result is an error; if every entry has a
guard status with a non-empty `ifndef_name`, it never raises. -/
theorem C5_analyzer_fail_fast :
    (∀ l : List HeaderStatus,
        (∃ s, s ∈ l ∧ (s.header_guard_status = none ∨
          ∃ g, s.header_guard_status = some g ∧
            (g.ifndef_name = none ∨ g.ifndef_name = some ("")))) →
        ∃ e, map_guard_tag_to_filepaths l = .error e) ∧
    (∀ l : List HeaderStatus, (∀ s, s ∈ l → GoodStatus s) →
        ∃ m, map_guard_tag_to_filepaths l = .ok m) := by
  constructor
  · intro l hbad
    exact mapGuardGo_error l [] hbad
  · intro l h
    obtain ⟨m, hm, _, _⟩ := map_guard_spec l h
    exact ⟨m, hm⟩

/-- C5 witness: a status without guard information makes the analyzer
raise; two well-tagged statuses do not. -/
theorem C5_analyzer_fail_fast_witness :
    (∃ e, map_guard_tag_to_filepaths
      [ { file_path := "a.h", header_guard_status := none, uses_pragma_once := false } ] =
        .error e) ∧
    (∃ m, map_guard_tag_to_filepaths
      [ { file_path := "a.h",
          header_guard_status := some { ifndef_name := some ("X"), def_name := some ("X") },
          uses_pragma_once := false } ] = .ok m) := by
  constructor
  · exact C5_analyzer_fail_fast.1 _ ⟨_, List.mem_cons_self _ _, Or.inl rfl⟩
  · refine C5_analyzer_fail_fast.2 _ ?_
    intro s hs
    rcases List.mem_cons.mp hs with rfl | hs
    · exact ⟨_, "X", rfl, rfl, by decide⟩
    · cases hs

/-- C3: for contract-satisfying input, the analyzer builds the tag index
whose bucket for each tag is exactly the input file paths carrying that tag,
in input order; every path of every bucket comes from an input status whose
tag is the bucket's key; a bucket of length greater than 1 is in the
collision subset; a collision is reported exactly when some tag has more
than one path; and pairwise-distinct tags report no collision. -/
theorem C3_analyzer_buckets (l : List HeaderStatus) (h : ∀ s, s ∈ l → GoodStatus s) :
    ∃ m, map_guard_tag_to_filepaths l = .ok m ∧
      (∀ k, lookupB m k = bucketSpec l k) ∧
      (∀ pr, pr ∈ m → ∀ p, p ∈ pr.2 →
        ∃ s, s ∈ l ∧ s.file_path = p ∧ tagOf s = some pr.1) ∧
      (∀ k, 1 < (bucketSpec l k).length →
        (k, bucketSpec l k) ∈ m.filter (fun pr => 1 < pr.2.length)) ∧
      (duplicated_header_guards_exist l = .ok true ↔
        ∃ k, 1 < (bucketSpec l k).length) ∧
      (List.Pairwise (fun a b => tagOf a ≠ tagOf b) l →
        duplicated_header_guards_exist l = .ok false) := by
  obtain ⟨m, hm, hlk, hnd⟩ := map_guard_spec l h
  obtain ⟨b, hb, hbiff⟩ := duplicated_spec l h
  refine ⟨m, hm, hlk, ?_, ?_, ?_, ?_⟩
  · intro pr hpr p hp
    have hpr2 : pr.2 = bucketSpec l pr.1 := by
      rw [← hlk pr.1, lookupB_of_mem m pr hnd hpr]
    rw [hpr2, bucketSpec] at hp
    obtain ⟨s, hs, hsp⟩ := List.mem_map.mp hp
    have hsf := List.mem_filter.mp hs
    exact ⟨s, hsf.1, hsp, by simpa using hsf.2⟩
  · intro k hk
    have hne : lookupB m k ≠ [] := by
      rw [hlk k]
      intro hcon
      rw [hcon] at hk
      simp at hk
    have hmem := mem_of_lookupB_ne_nil m k hne
    rw [hlk k] at hmem
    exact List.mem_filter.mpr ⟨hmem, by simpa using hk⟩
  · rw [hb]
    simpa using hbiff
  · intro hpw
    have hbf : b = false := by
      cases b with
      | false => rfl
      | true =>
        exfalso
        obtain ⟨k, hk⟩ := hbiff.mp rfl
        have := bucketSpec_length_le_one_of_pairwise l hpw k
        omega
    rw [hb, hbf]

/-- C3 witness: two headers guarded by the same tag `"X"` are reported as a
collision. -/
theorem C3_analyzer_buckets_witness :
    duplicated_header_guards_exist
      [ { file_path := "a.h",
          header_guard_status := some { ifndef_name := some ("X"), def_name := some ("X") },
          uses_pragma_once := false },
        { file_path := "b.h",
          header_guard_status := some { ifndef_name := some ("X"), def_name := some ("X") },
          uses_pragma_once := false } ] = .ok true := by
  obtain ⟨m, hm, hlk, hmem, hcol, hdup, hpw⟩ :=
    C3_analyzer_buckets
      [ { file_path := "a.h",
          header_guard_status := some { ifndef_name := some ("X"), def_name := some ("X") },
          uses_pragma_once := false },
        { file_path := "b.h",
          header_guard_status := some { ifndef_name := some ("X"), def_name := some ("X") },
          uses_pragma_once := false } ]
      (by
        intro s hs
        rcases List.mem_cons.mp hs with rfl | hs
        · exact ⟨_, "X", rfl, rfl, by decide⟩
        rcases List.mem_cons.mp hs with rfl | hs
        · exact ⟨_, "X", rfl, rfl, by decide⟩
        · cases hs)
  exact hdup.mpr ⟨"X", by decide⟩

theorem check_header_good (p d : String) (g : HeaderGuardStatus)
    (h : (check_header p d).header_guard_status = some g) :
    GoodStatus (check_header p d) := by
  by_cases hp : uses_pragma_once d = true
  · simp [check_header, hp] at h
  · cases hg : get_header_guard_status d with
    | none => simp [check_header, hp, hg] at h
    | some g' =>
      obtain ⟨t, ht, htne⟩ := guard_ifndef_nonempty d g' hg
      have hch : (check_header p d).header_guard_status = some g' := by
        simp [check_header, hp, hg]
      exact ⟨g', t, hch, ht, htne⟩

theorem pipeline_guard_filter_good (headers : List (String × String)) :
    ∀ s, s ∈ (headers.map (fun h => check_header h.1 h.2)).filter
        (fun s => s.header_guard_status.isSome) → GoodStatus s := by
  intro s hs
  obtain ⟨hmem, hsome⟩ := List.mem_filter.mp hs
  obtain ⟨hh, hhm, rfl⟩ := List.mem_map.mp hmem
  obtain ⟨g, hg⟩ := Option.isSome_iff_exists.mp (by simpa using hsome)
  exact check_header_good hh.1 hh.2 g hg

theorem bucketSpec_filter_guard (l : List HeaderStatus) (k : String) :
    bucketSpec (l.filter (fun s => s.header_guard_status.isSome)) k =
      bucketSpec l k := by
  rw [bucketSpec, bucketSpec, List.filter_filter]
  congr 1
  apply List.filter_congr
  intro s _
  cases hg : s.header_guard_status with
  | none => simp [tagOf, hg]
  | some g => simp [tagOf, hg]

/-- C9: every guard status the extractor returns has a present, non-empty
`ifndef_name` (the `(\w+)` capture is a nonempty word), so the missing-ifndef
branch of `get_error` and the analyzer's missing-tag error cannot fire on
statuses produced by the classification pipeline. -/
theorem C9_extractor_guard_invariant :
    (∀ data g, get_header_guard_status data = some g →
        ∃ t, g.ifndef_name = some t ∧ t ≠ "") ∧
    (∀ data g, get_header_guard_status data = some g → g.ifndef_name ≠ none) ∧
    (∀ headers : List (String × String),
        ∃ m, map_guard_tag_to_filepaths
          ((headers.map (fun h => check_header h.1 h.2)).filter
            (fun s => s.header_guard_status.isSome)) = .ok m) := by
  refine ⟨guard_ifndef_nonempty, ?_, ?_⟩
  · intro data g hg
    obtain ⟨t, ht, _⟩ := guard_ifndef_nonempty data g hg
    rw [ht]
    simp
  · intro headers
    obtain ⟨m, hm, _, _⟩ := map_guard_spec _ (pipeline_guard_filter_good headers)
    exact ⟨m, hm⟩

/-- C9 witness: on a one-guarded-header pipeline the analyzer succeeds and
the extracted tag is present and nonempty. -/
theorem C9_extractor_guard_invariant_witness :
    (∃ t, ({ ifndef_name := some ("A_H"), def_name := some ("A_H")} :
        HeaderGuardStatus).ifndef_name = some t ∧ t ≠ "") ∧
    (∃ m, map_guard_tag_to_filepaths
      (([(("a.h" : String), ("#ifndef A_H\n#define A_H\n" : String))].map
        (fun h => check_header h.1 h.2)).filter
          (fun s => s.header_guard_status.isSome)) = .ok m) :=
  ⟨C9_extractor_guard_invariant.1 ("#ifndef A_H\n#define A_H\n")
      { ifndef_name := some ("A_H"), def_name := some ("A_H") } (by decide),
    C9_extractor_guard_invariant.2.2 [("a.h", "#ifndef A_H\n#define A_H\n")]⟩

theorem isSome_if_bool (C : Bool) (x : String) :
    ((if C = true then some x else none) : Option String).isSome = C := by
  cases C <;> simp

/-- C4: directory mode never raises; it reports `"Errors found"` — and the
process exit status is 1 — exactly when some scanned header has neither
pragma-once nor a guard status, or some guard tag is carried by more than
one scanned file; otherwise it reports nothing and the exit status is 0. -/
theorem C4_directory_mode :
    ∀ headers : List (String × String),
      ∃ r, process_dir headers = .ok r ∧
        (r.isSome = true ↔
          ((∃ h, h ∈ headers ∧ (check_header h.1 h.2).uses_pragma_once = false ∧
              (check_header h.1 h.2).header_guard_status = none) ∨
            (∃ k, 1 <
              (bucketSpec (headers.map (fun h => check_header h.1 h.2)) k).length))) ∧
        (main_exit_code headers = .ok 1 ↔
          ((∃ h, h ∈ headers ∧ (check_header h.1 h.2).uses_pragma_once = false ∧
              (check_header h.1 h.2).header_guard_status = none) ∨
            (∃ k, 1 <
              (bucketSpec (headers.map (fun h => check_header h.1 h.2)) k).length))) ∧
        (main_exit_code headers = .ok 0 ↔
          ¬((∃ h, h ∈ headers ∧ (check_header h.1 h.2).uses_pragma_once = false ∧
              (check_header h.1 h.2).header_guard_status = none) ∨
            (∃ k, 1 <
              (bucketSpec (headers.map (fun h => check_header h.1 h.2)) k).length))) := by
  intro headers
  obtain ⟨b, hb, hbiff⟩ := duplicated_spec _ (pipeline_guard_filter_good headers)
  simp only [bucketSpec_filter_guard] at hbiff
  have hnp : 0 < ((headers.map (fun h => check_header h.1 h.2)).filter
      (fun s => s.header_guard_status.isNone && !s.uses_pragma_once)).length ↔
      (∃ h, h ∈ headers ∧ (check_header h.1 h.2).uses_pragma_once = false ∧
        (check_header h.1 h.2).header_guard_status = none) := by
    rw [List.length_pos_iff_exists_mem]
    constructor
    · rintro ⟨s, hs⟩
      obtain ⟨hmem, hcond⟩ := List.mem_filter.mp hs
      obtain ⟨hh, hhm, rfl⟩ := List.mem_map.mp hmem
      rw [Bool.and_eq_true] at hcond
      refine ⟨hh, hhm, ?_, ?_⟩
      · simpa using hcond.2
      · simpa [Option.isNone_iff_eq_none] using hcond.1
    · rintro ⟨hh, hhm, h1, h2⟩
      refine ⟨check_header hh.1 hh.2,
        List.mem_filter.mpr ⟨List.mem_map.mpr ⟨hh, hhm, rfl⟩, ?_⟩⟩
      simp [h1, h2]
  have hpd : process_dir headers = .ok
      (if (decide (0 < ((headers.map (fun h => check_header h.1 h.2)).filter
          (fun s => s.header_guard_status.isNone && !s.uses_pragma_once)).length) || b)
          = true
        then some ("Errors found") else none) := by
    simp only [process_dir]
    rw [hb]
  have hkey : (decide (0 < ((headers.map (fun h => check_header h.1 h.2)).filter
      (fun s => s.header_guard_status.isNone && !s.uses_pragma_once)).length) || b)
      = true ↔
      ((∃ h, h ∈ headers ∧ (check_header h.1 h.2).uses_pragma_once = false ∧
          (check_header h.1 h.2).header_guard_status = none) ∨
        (∃ k, 1 <
          (bucketSpec (headers.map (fun h => check_header h.1 h.2)) k).length)) := by
    rw [Bool.or_eq_true, decide_eq_true_eq, hnp, hbiff]
  have hmec : main_exit_code headers = .ok
      (if (if (decide (0 < ((headers.map (fun h => check_header h.1 h.2)).filter
            (fun s => s.header_guard_status.isNone && !s.uses_pragma_once)).length) || b)
            = true
          then some ("Errors found") else none).isSome then 1 else 0) := by
    unfold main_exit_code
    rw [hpd]
  refine ⟨_, hpd, ?_, ?_, ?_⟩
  · rw [isSome_if_bool]
    exact hkey
  · rw [← hkey, hmec, isSome_if_bool]
    cases (decide (0 < ((headers.map (fun h => check_header h.1 h.2)).filter
        (fun s => s.header_guard_status.isNone && !s.uses_pragma_once)).length) || b) <;>
      simp
  · rw [← hkey, hmec, isSome_if_bool]
    cases (decide (0 < ((headers.map (fun h => check_header h.1 h.2)).filter
        (fun s => s.header_guard_status.isNone && !s.uses_pragma_once)).length) || b) <;>
      simp

/-- C4 witness: one unprotected header next to one pragma-once header makes
directory mode exit with status 1. -/
theorem C4_directory_mode_witness :
    main_exit_code [(("a.h" : String), ("int x;\n" : String)),
      (("b.h" : String), ("#pragma once\n" : String))] = .ok 1 := by
  obtain ⟨r, hpd, hiff, he1, he0⟩ :=
    C4_directory_mode [("a.h", "int x;\n"), ("b.h", "#pragma once\n")]
  exact he1.mpr (Or.inl ⟨("a.h", "int x;\n"), by simp, by decide, by decide⟩)

/-- C8: `process_dir` enumerates header files only from the proper
subdirectories `get_sub_dirs_to_search` returns, never from the root
directory itself: a header `a.h` lying directly in the scanned root is not
produced, although it is header-named, while headers in (non-ignored)
subdirectories are; the `.git` subtree and non-header names are excluded as
the claim states. -/
theorem C8_root_directory_not_scanned :
    is_header ("a.h") = true ∧
    enumerate_headers ("root") (FSTree.mk ["a.h"] .nil) = [] ∧
    enumerate_headers ("root")
      (FSTree.mk ["a.h"]
        (.cons "sub" (FSTree.mk ["b.h", "c.txt"] .nil)
          (.cons ".git" (FSTree.mk ["d.h"] .nil) .nil))) = ["root/sub/b.h"] :=
  ⟨by decide, by decide, by decide⟩

/-! ## Unfolding equations of the matcher (all definitional) -/

theorem mtch_nil_items (s : List Char) : mtch [] s = some [] := rfl

theorem mtch_optCls_cons (p : Char → Bool) (rest : List Item) (c : Char) (s : List Char) :
    mtch (.optCls p :: rest) (c :: s) =
      if p c = true then firstSome (mtch rest s) (fun _ => mtch rest (c :: s))
      else mtch rest (c :: s) := rfl

theorem mtch_starCls (p : Char → Bool) (rest : List Item) (s : List Char) :
    mtch (.starCls p :: rest) s = starClsRun (mtch rest) p s := rfl

theorem mtch_plusGrp_cons (p : Char → Bool) (rest : List Item) (c : Char) (s : List Char) :
    mtch (.plusGrp p :: rest) (c :: s) =
      if p c = true then (starGrpRun (mtch rest) p s).map (fun cap => c :: cap)
      else none := rfl

theorem starClsRun_nil (f : List Char → Option (List Char)) (p : Char → Bool) :
    starClsRun f p [] = f [] := rfl

theorem starClsRun_cons (f : List Char → Option (List Char)) (p : Char → Bool)
    (c : Char) (s : List Char) :
    starClsRun f p (c :: s) =
      if p c = true then firstSome (starClsRun f p s) (fun _ => f (c :: s))
      else f (c :: s) := rfl

theorem starGrpRun_nil (f : List Char → Option (List Char)) (p : Char → Bool) :
    starGrpRun f p [] = f [] := rfl

theorem starGrpRun_cons (f : List Char → Option (List Char)) (p : Char → Bool)
    (c : Char) (s : List Char) :
    starGrpRun f p (c :: s) =
      if p c = true then
        firstSome ((starGrpRun f p s).map (fun cap => c :: cap)) (fun _ => f (c :: s))
      else f (c :: s) := rfl

theorem search_nil (items : List Item) : search items [] = mtch items [] := rfl

theorem search_cons (items : List Item) (c : Char) (s : List Char) :
    search items (c :: s) =
      firstSome (mtch items (c :: s)) (fun _ => search items s) := rfl

/-! ## Values and success and failure of the greedy quantifiers -/

theorem mtch_lit_only_eq_nil (l : List Char) :
    ∀ s r, mtch [.lit l] s = some r → r = [] := by
  intro s r h
  cases hp : l.isPrefixOf s with
  | true =>
    rw [mtch, if_pos hp, mtch_nil_items] at h
    injection h with h'
    exact h'.symm
  | false =>
    rw [mtch_lit_fail _ _ _ hp] at h
    cases h

theorem starClsRun_eq_nil (f : List Char → Option (List Char)) (p : Char → Bool)
    (hf : ∀ s r, f s = some r → r = []) :
    ∀ s r, starClsRun f p s = some r → r = [] := by
  intro s
  induction s with
  | nil =>
    intro r h
    rw [starClsRun_nil] at h
    exact hf [] r h
  | cons c s' ih =>
    intro r h
    rw [starClsRun_cons] at h
    by_cases hc : p c = true
    · rw [if_pos hc] at h
      cases hA : starClsRun f p s' with
      | some w =>
        rw [firstSome_eq_some _ _ _ hA] at h
        cases h
        exact ih _ hA
      | none =>
        rw [firstSome_eq_none _ _ hA] at h
        exact hf _ r h
    · rw [if_neg hc] at h
      exact hf _ r h

theorem firstSome_eq_some_nil (a : Option (List Char)) (b : Unit → Option (List Char))
    (ha : ∀ r, a = some r → r = []) (hb : b () = some []) :
    firstSome a b = some [] := by
  cases hA : a with
  | some v =>
    have hv : v = [] := ha v hA
    subst hv
    rfl
  | none => exact hb

theorem starGrpRun_append (f : List Char → Option (List Char)) (p : Char → Bool)
    (run s v : List Char)
    (hrun : ∀ c ∈ run, p c = true)
    (hstop : s = [] ∨ ∃ c t, s = c :: t ∧ p c = false)
    (hf : f s = some v) :
    starGrpRun f p (run ++ s) = some (run ++ v) := by
  induction run with
  | nil =>
    rw [List.nil_append, List.nil_append]
    rcases hstop with rfl | ⟨c, t, rfl, hc⟩
    · rw [starGrpRun_nil]
      exact hf
    · rw [starGrpRun_cons, if_neg (by simp [hc])]
      exact hf
  | cons c run' ih =>
    have hc : p c = true := hrun c (List.mem_cons_self c run')
    have ih' := ih (fun x hx => hrun x (List.mem_cons_of_mem c hx))
    rw [List.cons_append, starGrpRun_cons, if_pos hc, ih']
    rw [show (Option.map (fun cap => c :: cap) (some (run' ++ v))) =
      some (c :: (run' ++ v)) from rfl]
    rw [firstSome_eq_some _ _ _ rfl]
    rw [List.cons_append]

theorem mtch_plusGrp_append (p : Char → Bool) (rest : List Item)
    (run s v : List Char)
    (hrun : ∀ c ∈ run, p c = true) (hne : run ≠ [])
    (hstop : s = [] ∨ ∃ c t, s = c :: t ∧ p c = false)
    (hrest : mtch rest s = some v) :
    mtch (.plusGrp p :: rest) (run ++ s) = some (run ++ v) := by
  cases run with
  | nil => exact absurd rfl hne
  | cons c run' =>
    have hc : p c = true := hrun c (List.mem_cons_self c run')
    have h2 := starGrpRun_append (mtch rest) p run' s v
      (fun x hx => hrun x (List.mem_cons_of_mem c hx)) hstop hrest
    rw [List.cons_append, mtch_plusGrp_cons, if_pos hc, h2]
    rw [List.cons_append]
    rfl

theorem starClsRun_none (f : List Char → Option (List Char)) (p : Char → Bool) :
    ∀ s, (∀ s', s' <:+ s → f s' = none) → starClsRun f p s = none := by
  intro s
  induction s with
  | nil =>
    intro hf
    rw [starClsRun_nil]
    exact hf [] (List.suffix_refl [])
  | cons c s' ih =>
    intro hf
    rw [starClsRun_cons]
    by_cases hc : p c = true
    · rw [if_pos hc]
      have hA : starClsRun f p s' = none :=
        ih (fun t ht => hf t (ht.trans (List.suffix_cons c s')))
      rw [firstSome_eq_none _ _ hA]
      exact hf _ (List.suffix_refl _)
    · rw [if_neg hc]
      exact hf _ (List.suffix_refl _)

/-! ## Suffix bookkeeping for the leftmost-match arguments -/

theorem suffix_append_drop (a : List Char) :
    ∀ b s', s' <:+ a ++ b → s' <:+ b ∨ ∃ a', a' <:+ a ∧ a' ≠ [] ∧ s' = a' ++ b := by
  induction a with
  | nil =>
    intro b s' h
    exact Or.inl (by simpa using h)
  | cons x a' ih =>
    intro b s' h
    obtain ⟨u, hu⟩ := h
    cases u with
    | nil =>
      refine Or.inr ⟨x :: a', List.suffix_refl _, by simp, ?_⟩
      simpa using hu
    | cons y u' =>
      have h2 : u' ++ s' = a' ++ b := by
        rw [List.cons_append] at hu
        injection hu with _ h2
      rcases ih b s' ⟨u', h2⟩ with h3 | ⟨a2, ha2, hne2, rfl⟩
      · exact Or.inl h3
      · exact Or.inr ⟨a2, ha2.trans (List.suffix_cons x a'), hne2, rfl⟩

theorem suffix_skip_block (a b s' : List Char) (c0 : Char) (t : List Char)
    (hs : s' <:+ a ++ b) (hhead : s' = c0 :: t) (hno : ∀ c ∈ a, ¬(c = c0)) :
    s' <:+ b := by
  rcases suffix_append_drop a b s' hs with h | ⟨a', ha', hne, heq⟩
  · exact h
  · exfalso
    cases a' with
    | nil => exact hne rfl
    | cons z a2 =>
      have hz : z = c0 := by
        rw [heq, List.cons_append] at hhead
        injection hhead
      have hzmem : z ∈ a := ha'.subset (List.mem_cons_self z a2)
      exact hno z hzmem hz

theorem substrB_of_within (pat s s' : List Char) (hs : s' <:+ s)
    (hp : pat.isPrefixOf s' = true) : substrB pat s = true := by
  induction s with
  | nil =>
    have hnil : s' = [] := List.suffix_nil.mp hs
    subst hnil
    rw [substrB]
    exact hp
  | cons c s2 ih =>
    rcases List.suffix_cons_iff.mp hs with rfl | h2
    · rw [substrB, hp]
      rfl
    · rw [substrB, ih h2]
      simp

theorem search_lit_append (l : List Char) (rest : List Item)
    (pre core v : List Char)
    (hm : mtch (.lit l :: rest) core = some v)
    (hpre : ∀ k, k < pre.length → l.isPrefixOf ((pre ++ core).drop k) = false) :
    search (.lit l :: rest) (pre ++ core) = some v := by
  induction pre with
  | nil =>
    rw [List.nil_append]
    cases core with
    | nil => rw [search_nil]; exact hm
    | cons c s => rw [search_cons, firstSome_eq_some _ _ _ hm]
  | cons c pre' ih =>
    rw [List.cons_append, search_cons]
    have h0 : l.isPrefixOf (c :: (pre' ++ core)) = false := by
      have := hpre 0 (Nat.succ_pos _)
      simpa using this
    rw [firstSome_eq_none _ _ (mtch_lit_fail _ _ _ h0)]
    exact ih (fun k hk => by
      have := hpre (k + 1) (Nat.succ_lt_succ hk)
      simpa using this)

theorem mtch_lit_eq (l : List Char) (rest : List Item) (s : List Char) :
    mtch (.lit l :: rest) s =
      if l.isPrefixOf s = true then mtch rest (List.drop l.length s) else none := rfl

theorem mtch_guard_at_core (TAGL postL : List Char)
    (hw : ∀ c ∈ TAGL, isWordChar c = true) (hne : TAGL ≠ []) :
    mtch re_header_guard_name
      (("#ifndef ".toList) ++
        (TAGL ++ '\n' :: ("#define ".toList ++ (TAGL ++ postL)))) = some TAGL := by
  rw [show re_header_guard_name = .lit ("#ifndef ".toList) ::
      [.plusGrp isWordChar, .optCls isSpaceChar, .starCls isNotNewline,
        .lit ("\n#define".toList)] from rfl, mtch_lit_append]
  have hval : ∀ s r,
      mtch [.starCls isNotNewline, .lit ("\n#define".toList)] s = some r → r = [] := by
    intro s r h
    rw [mtch_starCls] at h
    exact starClsRun_eq_nil _ _ (mtch_lit_only_eq_nil _) s r h
  have hrest : mtch [.optCls isSpaceChar, .starCls isNotNewline,
      .lit ("\n#define".toList)]
      ('\n' :: ("#define ".toList ++ (TAGL ++ postL))) = some [] := by
    rw [mtch_optCls_cons, if_pos (show isSpaceChar '\n' = true by decide)]
    apply firstSome_eq_some_nil
    · exact fun r h => hval _ r h
    · rw [mtch_starCls, starClsRun_cons,
        if_neg (show ¬(isNotNewline '\n' = true) by decide)]
      have hpre : ("\n#define".toList).isPrefixOf
          ('\n' :: ("#define ".toList ++ (TAGL ++ postL))) = true := by
        rw [List.isPrefixOf_iff_prefix]
        exact ⟨' ' :: (TAGL ++ postL), rfl⟩
      rw [mtch_lit_eq, if_pos hpre]
      rfl
  have h3 := mtch_plusGrp_append isWordChar
    [.optCls isSpaceChar, .starCls isNotNewline, .lit ("\n#define".toList)]
    TAGL ('\n' :: ("#define ".toList ++ (TAGL ++ postL))) [] hw hne
    (Or.inr ⟨'\n', _, rfl, by decide⟩) hrest
  rw [List.append_nil] at h3
  exact h3

theorem mtch_define_at_core (TAGL postL : List Char)
    (hw : ∀ c ∈ TAGL, isWordChar c = true) (hne : TAGL ≠ [])
    (hpost : postL = [] ∨ ∃ c t, postL = c :: t ∧ isWordChar c = false)
    (hpostD : substrB ("\n#define ".toList) postL = false) :
    mtch (.lit (("#ifndef ".toList) ++ TAGL) ::
        [.optCls isSpaceChar, .starCls isNotNewline, .lit ("\n#define ".toList),
          .plusGrp isWordChar])
      ((("#ifndef ".toList) ++ TAGL) ++
        ('\n' :: ("#define ".toList ++ (TAGL ++ postL)))) = some TAGL := by
  rw [mtch_lit_append, mtch_optCls_cons, if_pos (show isSpaceChar '\n' = true by decide)]
  have hA : mtch [.starCls isNotNewline, .lit ("\n#define ".toList), .plusGrp isWordChar]
      ("#define ".toList ++ (TAGL ++ postL)) = none := by
    rw [mtch_starCls]
    apply starClsRun_none
    intro s' hs'
    cases hp : ("\n#define ".toList).isPrefixOf s' with
    | false => exact mtch_lit_fail _ _ _ hp
    | true =>
      exfalso
      obtain ⟨t0, ht0⟩ := List.isPrefixOf_iff_prefix.mp hp
      have hhead : s' = '\n' :: (("#define ".toList) ++ t0) := by
        rw [← ht0]
        rfl
      have h1 : s' <:+ (TAGL ++ postL) :=
        suffix_skip_block ("#define ".toList) (TAGL ++ postL) s' '\n' _ hs' hhead
          (by decide)
      have h2 : s' <:+ postL :=
        suffix_skip_block TAGL postL s' '\n' _ h1 hhead
          (fun c hc hceq => by
            have hcw := hw c hc
            rw [hceq] at hcw
            exact absurd hcw (by decide))
      have h3 := substrB_of_within ("\n#define ".toList) postL s' h2 hp
      rw [hpostD] at h3
      cases h3
  rw [firstSome_eq_none _ _ hA]
  rw [mtch_starCls, starClsRun_cons,
    if_neg (show ¬(isNotNewline '\n' = true) by decide)]
  rw [show ('\n' :: ("#define ".toList ++ (TAGL ++ postL))) =
      ("\n#define ".toList) ++ (TAGL ++ postL) from rfl]
  rw [mtch_lit_append]
  have h4 := mtch_plusGrp_append isWordChar [] TAGL postL [] hw hne hpost
    (mtch_nil_items postL)
  rw [List.append_nil] at h4
  exact h4

/-- C2 counterexample: the text `"#ifndef TAG\n#define TAG\n#define OTHER\n"`
contains `#ifndef TAG` immediately followed by a newline and `#define TAG`
and is not pragma-once, yet the greedy `\s?` of the second regex pairs the
`#ifndef` with the NEXT `#define` line, so the extractor reports
`def_name = "OTHER"`, not `"TAG"`. -/
theorem C2_counterexample :
    ("#ifndef TAG\n#define TAG\n#define OTHER\n" : String) =
      "" ++ "#ifndef " ++ "TAG" ++ "\n" ++ "#define " ++ "TAG" ++ "\n#define OTHER\n" ∧
    uses_pragma_once ("#ifndef TAG\n#define TAG\n#define OTHER\n") = false ∧
    get_header_guard_status ("#ifndef TAG\n#define TAG\n#define OTHER\n") =
      some { ifndef_name := some ("TAG"), def_name := some ("OTHER") } ∧
    get_header_guard_status ("#ifndef TAG\n#define TAG\n#define OTHER\n") ≠
      some { ifndef_name := some ("TAG"), def_name := some ("TAG") } :=
  ⟨by decide, by decide, by decide, by decide⟩

/-- C2 (amended): if the text is `pre ++ "#ifndef " ++ TAG ++ "\n#define " ++
TAG ++ post` where TAG is a nonempty identifier, no occurrence of
`#ifndef ` starts inside `pre`, `post` does not begin with an identifier
character, and `post` contains no `"\n#define "`, then extraction reports
`ifndef_name = def_name = TAG` (and, when the text is not pragma-once,
classification reports exactly that guard); and whenever the first search
succeeds but the tag-specific second search fails, `def_name` is the empty
string — the embedding is total, no error is raised. -/
theorem C2_guard_pair_extraction :
    (∀ path pre TAG post : String,
        TAG.toList ≠ [] →
        (∀ c ∈ TAG.toList, isWordChar c = true) →
        (post.toList = [] ∨ ∃ c t, post.toList = c :: t ∧ isWordChar c = false) →
        substrB ("\n#define ".toList) post.toList = false →
        (∀ k, k < pre.toList.length →
          ("#ifndef ".toList).isPrefixOf
            ((pre ++ "#ifndef " ++ TAG ++ "\n#define " ++ TAG ++ post).toList.drop k) =
              false) →
        get_header_guard_status (pre ++ "#ifndef " ++ TAG ++ "\n#define " ++ TAG ++ post) =
          some { ifndef_name := some TAG, def_name := some TAG } ∧
        (uses_pragma_once (pre ++ "#ifndef " ++ TAG ++ "\n#define " ++ TAG ++ post) =
            false →
          check_header path (pre ++ "#ifndef " ++ TAG ++ "\n#define " ++ TAG ++ post) =
            { file_path := path,
              header_guard_status :=
                some { ifndef_name := some TAG, def_name := some TAG },
              uses_pragma_once := false })) ∧
    (∀ (data : String) (tagL : List Char),
        search re_header_guard_name data.toList = some tagL →
        search (re_define (String.mk tagL)) data.toList = none →
        get_header_guard_status data =
          some { ifndef_name := some (String.mk tagL), def_name := some ("") }) := by
  constructor
  · intro path pre TAG post hne hw hpost hpostD hpre
    have hdata : (pre ++ "#ifndef " ++ TAG ++ "\n#define " ++ TAG ++ post).toList =
        pre.toList ++ (("#ifndef ".toList) ++
          (TAG.toList ++ '\n' :: ("#define ".toList ++ (TAG.toList ++ post.toList)))) := by
      simp only [toList_append, List.append_assoc,
        show ("\n#define ".toList) = '\n' :: ("#define ".toList) from rfl,
        List.cons_append]
    have hdata2 : (pre ++ "#ifndef " ++ TAG ++ "\n#define " ++ TAG ++ post).toList =
        pre.toList ++ ((("#ifndef ".toList) ++ TAG.toList) ++
          ('\n' :: ("#define ".toList ++ (TAG.toList ++ post.toList)))) := by
      rw [hdata, List.append_assoc]
    have hs1 : search re_header_guard_name
        (pre ++ "#ifndef " ++ TAG ++ "\n#define " ++ TAG ++ post).toList =
        some TAG.toList := by
      rw [hdata]
      exact search_lit_append ("#ifndef ".toList)
        [.plusGrp isWordChar, .optCls isSpaceChar, .starCls isNotNewline,
          .lit ("\n#define".toList)]
        pre.toList
        (("#ifndef ".toList) ++
          (TAG.toList ++ '\n' :: ("#define ".toList ++ (TAG.toList ++ post.toList))))
        TAG.toList
        (mtch_guard_at_core TAG.toList post.toList hw hne)
        (fun k hk => by
          have h6 := hpre k hk
          rw [hdata] at h6
          exact h6)
    have hs2 : search (re_define (String.mk TAG.toList))
        (pre ++ "#ifndef " ++ TAG ++ "\n#define " ++ TAG ++ post).toList =
        some TAG.toList := by
      rw [hdata2]
      have hlit : re_define (String.mk TAG.toList) =
          .lit (("#ifndef ".toList) ++ TAG.toList) ::
            [.optCls isSpaceChar, .starCls isNotNewline, .lit ("\n#define ".toList),
              .plusGrp isWordChar] := by
        rw [re_define]
        rw [show (("#ifndef " ++ String.mk TAG.toList)).toList =
          ("#ifndef ".toList) ++ TAG.toList from toList_append _ _]
      rw [hlit]
      exact search_lit_append (("#ifndef ".toList) ++ TAG.toList)
        [.optCls isSpaceChar, .starCls isNotNewline, .lit ("\n#define ".toList),
          .plusGrp isWordChar]
        pre.toList
        ((("#ifndef ".toList) ++ TAG.toList) ++
          ('\n' :: ("#define ".toList ++ (TAG.toList ++ post.toList))))
        TAG.toList
        (mtch_define_at_core TAG.toList post.toList hw hne hpost hpostD)
        (fun k hk => by
          cases hcon : (("#ifndef ".toList) ++ TAG.toList).isPrefixOf
              ((pre.toList ++ ((("#ifndef ".toList) ++ TAG.toList) ++
                ('\n' :: ("#define ".toList ++ (TAG.toList ++ post.toList))))).drop k) with
          | false => rfl
          | true =>
            exfalso
            have hpx : ("#ifndef ".toList) <+: (("#ifndef ".toList) ++ TAG.toList) :=
              List.prefix_append _ _
            have h5 : ("#ifndef ".toList).isPrefixOf
                ((pre.toList ++ ((("#ifndef ".toList) ++ TAG.toList) ++
                  ('\n' :: ("#define ".toList ++ (TAG.toList ++ post.toList))))).drop k) =
                true :=
              List.isPrefixOf_iff_prefix.mpr
                (hpx.trans (List.isPrefixOf_iff_prefix.mp hcon))
            have h6 := hpre k hk
            rw [hdata2] at h6
            exact absurd (h5.symm.trans h6) (by decide))
    have hget : get_header_guard_status
        (pre ++ "#ifndef " ++ TAG ++ "\n#define " ++ TAG ++ post) =
        some { ifndef_name := some TAG, def_name := some TAG } := by
      unfold get_header_guard_status
      rw [hs1]
      simp only [hs2]
      rfl
    refine ⟨hget, ?_⟩
    intro hpragma
    simp [check_header, hpragma, hget]
  · intro data tagL h1 h2
    unfold get_header_guard_status
    rw [h1]
    simp only [h2]

/-- C2 witness: Scenario B, a standard guard layout with no second
`#define` line immediately following, extracts `GUARD_H` for both names. -/
theorem C2_guard_pair_extraction_witness :
    get_header_guard_status
        ("" ++ "#ifndef " ++ "GUARD_H" ++ "\n#define " ++ "GUARD_H" ++
          "\n// body\n#endif\n") =
      some { ifndef_name := some ("GUARD_H"), def_name := some ("GUARD_H") } ∧
    check_header ("f.h")
        ("" ++ "#ifndef " ++ "GUARD_H" ++ "\n#define " ++ "GUARD_H" ++
          "\n// body\n#endif\n") =
      { file_path := "f.h",
        header_guard_status :=
          some { ifndef_name := some ("GUARD_H"), def_name := some ("GUARD_H") },
        uses_pragma_once := false } := by
  have h := C2_guard_pair_extraction.1 ("f.h") ("") ("GUARD_H") ("\n// body\n#endif\n")
    (by decide) (by decide)
    (Or.inr ⟨'\n', ("// body\n#endif\n".toList), by decide, by decide⟩)
    (by decide)
    (fun k hk => absurd hk (Nat.not_lt_zero k))
  exact ⟨h.1, h.2 (by decide)⟩
